import Mathlib

/-!
# Shallow embedding of FontCollector (src/fontCollector.py, version 0.3.4)

This file embeds the algorithmic core of `fontCollector.py` in Lean:

* the override-tag scanner: `parseTags` (lines 85-147) and `parseLine`
  (lines 150-172), together with the regular-expression scanners it relies on
  (`TAG_R_PATTERN`, `TAG_BOLD_PATTERN`, `TAG_ITALIC_PATTERN`, `TAG_FN_PATTERN`,
  `INT_PATTERN`, `LINE_PATTERN`), hand-compiled to executable scanners over
  `List Char` with Python `re` semantics (leftmost match, ordered alternation,
  lazy/greedy quantifiers, lookaround, empty-match advancement);
* the font matcher `searchFont` (lines 209-234);
* the resolution driver `getAssStyle` (lines 175-196) and `findUsedFont`
  (lines 237-263).

Python `int` is modeled as `Int`, Python `str` as `String` / `List Char`,
Python sets of `AssStyle` as `Finset AssStyle` (its `__eq__` compares all
three fields), Python sets of `Font` as lists with membership up to `fontEq`
(its `__eq__`/`__hash__` ignore `fontPath`), `sys.exit` as `Except.error`,
and warning prints as an extra `Bool` result.
-/

namespace FontCollector

/-- The `Font` NamedTuple (lines 29-39): one discovered font file. -/
structure Font where
  fontPath : String
  fontName : String
  weight : Int
  italic : Bool
deriving DecidableEq, Repr, Inhabited

/-- `Font.__eq__` / `Font.__hash__` (lines 35-39) compare only `fontName`,
`italic` and `weight`; `fontPath` is ignored, so Python set membership for
`Font` is membership up to this relation. -/
def fontEq (a b : Font) : Bool :=
  a.fontName == b.fontName && a.italic == b.italic && a.weight == b.weight

/-- The `AssStyle` NamedTuple (lines 41-54): the style at some point of a
line. Its `__eq__` compares all three fields, i.e. structural equality. -/
structure AssStyle where
  fontName : String
  weight : Int
  italic : Bool
deriving DecidableEq, Repr, Inhabited

/-- The ASCII characters removed by Python `str.strip()`. -/
def pyIsSpace (c : Char) : Bool :=
  c == ' ' || c == '\t' || c == '\n' || c == '\x0b' || c == '\x0c' || c == '\r'

/-- Python `str.strip()`. -/
def pyStrip (s : String) : String :=
  String.mk (((s.data.dropWhile pyIsSpace).reverse.dropWhile pyIsSpace).reverse)

/-- Python `str.lower()` (`Char.toLower` stands in for the Unicode map). -/
def pyLower (s : String) : String :=
  String.mk (s.data.map Char.toLower)

/-- `stripFontname` (lines 70-82): drop a leading `@`. -/
def stripFontname (fontName : String) : String :=
  match fontName.data with
  | '@' :: rest => String.mk rest
  | _ => fontName

/-- First match of `INT_PATTERN` = `[+-]?\d+` (line 21) in a string, that is
`INT_PATTERN.findall(s)[0]` when a match exists: an optional sign immediately
followed by a maximal run of ASCII digits. -/
def findFirstInt : List Char → Option String
  | [] => none
  | c :: rest =>
    if c.isDigit then
      some (String.mk (c :: rest.takeWhile Char.isDigit))
    else if c == '+' || c == '-' then
      match rest with
      | d :: _ =>
        if d.isDigit then some (String.mk (c :: rest.takeWhile Char.isDigit))
        else findFirstInt rest
      | [] => none
    else findFirstInt rest

/-- Value of a run of ASCII digits. -/
def digitsToNat (ds : List Char) : Nat :=
  ds.foldl (fun n c => n * 10 + (c.toNat - '0'.toNat)) 0

/-- Python `int(...)` on strings matched by `[+-]?\d+`. -/
def pyInt (s : String) : Int :=
  match s.data with
  | '+' :: ds => Int.ofNat (digitsToNat ds)
  | '-' :: ds => - Int.ofNat (digitsToNat ds)
  | ds => Int.ofNat (digitsToNat ds)

/-- `TAG_R_PATTERN.split` (lines 23, 93): split on every occurrence of the
two-character sequence `\r`, left to right, non-overlapping. -/
def pySplitRList : List Char → List (List Char)
  | [] => [[]]
  | '\\' :: 'r' :: rest => [] :: pySplitRList rest
  | c :: rest =>
    match pySplitRList rest with
    | s :: ss => (c :: s) :: ss
    | [] => [[c]]

/-- `TAG_R_PATTERN.split` on a `String`. -/
def pySplitR (tags : String) : List String :=
  (pySplitRList tags.data).map String.mk

/-- `tagsList[-1]` (line 95): the text after the last reset marker.
`pySplitRList` always returns a non-empty list, so the default is never
used. -/
def cleanTagOf (tags : String) : String :=
  ((pySplitR tags).getLast?).getD ""

/-- One match attempt of `\\X[0-9]+|\\X\+[0-9]+|\\X\-[0-9]+` (the shape of
`TAG_BOLD_PATTERN` and `TAG_ITALIC_PATTERN`, lines 24-25) at the current
position: the alternatives are tried in order, digit runs are greedy. Returns
the matched characters and the remaining characters. -/
def tagNumMatch (x : Char) : List Char → Option (List Char × List Char)
  | '\\' :: c :: rest =>
    if c == x then
      let ds := rest.takeWhile Char.isDigit
      if ds ≠ [] then some ('\\' :: c :: ds, rest.drop ds.length)
      else
        match rest with
        | s :: rest2 =>
          if s == '+' || s == '-' then
            let ds2 := rest2.takeWhile Char.isDigit
            if ds2 ≠ [] then some ('\\' :: c :: s :: ds2, rest2.drop ds2.length)
            else none
          else none
        | [] => none
    else none
  | _ => none

/-- `findall` scan for `tagNumMatch`: leftmost matches, continuing after each
match (matches are never empty). The fuel is the length of the scanned list;
every step either consumes at least one character or finishes, so this fuel is
always sufficient. -/
def findallTagNumAux (x : Char) : Nat → List Char → List String
  | 0, _ => []
  | _ + 1, [] => []
  | fuel + 1, c :: rest =>
    match tagNumMatch x (c :: rest) with
    | some (m, rem) => String.mk m :: findallTagNumAux x fuel rem
    | none => findallTagNumAux x fuel rest

/-- `TAG_BOLD_PATTERN.findall` / `TAG_ITALIC_PATTERN.findall`. -/
def findallTagNum (x : Char) (s : String) : List String :=
  findallTagNumAux x s.data.length s.data

/-- `TAG_BOLD_PATTERN.findall` (lines 25, 98). -/
def findallBold (s : String) : List String := findallTagNum 'b' s

/-- `TAG_ITALIC_PATTERN.findall` (lines 24, 127). -/
def findallItalic (s : String) : List String := findallTagNum 'i' s

/-- ASCII reading of the regex word class `\w` (letters, digits, underscore)
used in the end-of-string lookaround of `TAG_FN_PATTERN`. -/
def isWordChar (c : Char) : Bool := c.isAlphanum || c == '_'

/-- The lookahead `(?=\)\\|\\|(?<=\w)(?=$)(?<=\w)(?=$))` of the first
alternative of `TAG_FN_PATTERN` (line 26), evaluated with `prev` the character
just before the position and the remaining characters: a `)\`, or a `\`, or
end of string right after a word character. -/
def fnAlt1Look (prev : Option Char) : List Char → Bool
  | ')' :: '\\' :: _ => true
  | '\\' :: _ => true
  | [] => (prev.map isWordChar).getD false
  | _ => false

/-- The lookahead `(?=\\)` of the third alternative of `TAG_FN_PATTERN`. -/
def fnAlt3Look : List Char → Bool
  | '\\' :: _ => true
  | _ => false

/-- The lookahead `(?=\)$)` of the fourth alternative of `TAG_FN_PATTERN`. -/
def fnAlt4Look : List Char → Bool
  | [')'] => true
  | _ => false

/-- The lookahead `(?=\)\\)` of the fifth alternative of `TAG_FN_PATTERN`. -/
def fnAlt5Look : List Char → Bool
  | ')' :: '\\' :: _ => true
  | _ => false

/-- Lazy `(.*?)` up to a zero-width lookahead: the shortest newline-free
prefix of the input whose end position satisfies `look` (which receives the
character just before that position and the characters after it). Returns the
captured prefix and the remaining characters. -/
def lazyTo (look : Option Char → List Char → Bool) : Option Char → List Char → Option (List Char × List Char)
  | prev, r =>
    if look prev r then some ([], r)
    else
      match r with
      | [] => none
      | c :: r2 =>
        if c == '\n' then none
        else
          match lazyTo look (some c) r2 with
          | some (cap, rem) => some (c :: cap, rem)
          | none => none

/-- `lazyTo` restricted to a non-empty capture: the shortest capture of length
at least one. Used when `re` forbids an empty match at the current position
(the `must_advance` rule after an empty match). -/
def lazyToNE (look : Option Char → List Char → Bool) (_prev : Option Char) :
    List Char → Option (List Char × List Char)
  | [] => none
  | c :: r2 =>
    if c == '\n' then none
    else
      match lazyTo look (some c) r2 with
      | some (cap, rem) => some (c :: cap, rem)
      | none => none

/-- Lazy scan to the first occurrence of `target` with no newline before it:
the characters before it and the characters after it. -/
def scanToChar (target : Char) : List Char → Option (List Char × List Char)
  | [] => none
  | c :: r =>
    if c == target then some ([], r)
    else if c == '\n' then none
    else
      match scanToChar target r with
      | some (pre, post) => some (c :: pre, post)
      | none => none

/-- The second alternative `(?<=fn)(.*?)(\()(.*?)(\))` of `TAG_FN_PATTERN`:
the lazy group 2 stops at the first `(` that is followed by a later `)` (with
no newline inside either lazy group), and group 4 stops at the first `)` after
it. Returns all characters consumed by the match. -/
def fnAlt2 : List Char → Option (List Char)
  | [] => none
  | c :: r =>
    if c == '\n' then none
    else if c == '(' then
      match scanToChar ')' r with
      | some (mid, _) => some ('(' :: (mid ++ [')']))
      | none =>
        match fnAlt2 r with
        | some consumed => some ('(' :: consumed)
        | none => none
    else
      match fnAlt2 r with
      | some consumed => some (c :: consumed)
      | none => none

/-- Lookbehind `(?<=fn)`: `behind` is the reversed list of characters before
the current position. -/
def behindFn : List Char → Bool
  | 'n' :: 'f' :: _ => true
  | _ => false

/-- Lookbehind `(?<=\\fn)`. -/
def behindBackslashFn : List Char → Bool
  | 'n' :: 'f' :: '\\' :: _ => true
  | _ => false

/-- One match attempt of `TAG_FN_PATTERN` (line 26) at the current position:
the five alternatives are tried in order. `lazy` is the lazy-quantifier
engine: `lazyTo` for a normal attempt, `lazyToNE` when `re` demands a
non-empty match (`must_advance` after an empty match; the second alternative
always consumes characters, so it is the same in both modes). Returns group 1
of the match (empty for alternatives 2-5, whose capture groups are groups
2-8) and the number of characters consumed by the match (the lookaheads are
zero-width). -/
def fnMatchAtWith
    (lazy : (Option Char → List Char → Bool) → Option Char → List Char → Option (List Char × List Char))
    (behind rest : List Char) : Option (String × Nat) :=
  let prev := behind.head?
  let alt1 : Option (String × Nat) :=
    if behindBackslashFn behind then
      match lazy fnAlt1Look prev rest with
      | some (cap, _) => some (String.mk cap, cap.length)
      | none => none
    else none
  let alt2 : Option (String × Nat) :=
    if behindFn behind then
      match fnAlt2 rest with
      | some consumed => some ("", consumed.length)
      | none => none
    else none
  let alt3 : Option (String × Nat) :=
    if behindBackslashFn behind then
      match lazy (fun _ r => fnAlt3Look r) prev rest with
      | some (cap, _) => some ("", cap.length)
      | none => none
    else none
  let alt4 : Option (String × Nat) :=
    if behindBackslashFn behind then
      match lazy (fun _ r => fnAlt4Look r) prev rest with
      | some (cap, _) => some ("", cap.length)
      | none => none
    else none
  let alt5 : Option (String × Nat) :=
    if behindBackslashFn behind then
      match lazy (fun _ r => fnAlt5Look r) prev rest with
      | some (cap, _) => some ("", cap.length)
      | none => none
    else none
  alt1 <|> alt2 <|> alt3 <|> alt4 <|> alt5

/-- A normal match attempt of `TAG_FN_PATTERN` at the current position. -/
def fnMatchAt (behind rest : List Char) : Option (String × Nat) :=
  fnMatchAtWith lazyTo behind rest

/-- A match attempt of `TAG_FN_PATTERN` that must consume at least one
character (the `must_advance` retry after an empty match). -/
def fnMatchAtNE (behind rest : List Char) : Option (String × Nat) :=
  fnMatchAtWith lazyToNE behind rest

/-- `findall` scan for `TAG_FN_PATTERN`, keeping group 1 of each match (the
only group the source reads, via `font[-1][0]`; `len(font[-1])` in the source
is the arity of the 8-tuple of groups, always 8). Mirrors `re.findall`: scan
left to right including the end-of-string position; after an empty match the
engine retries at the same position demanding a non-empty match
(`mustAdv = true`), and moves on by one character if that fails. Every step
either advances the position or switches to the retry mode (which always
advances), so at most two steps happen per position and fuel
`2 * (length + 1)` is always sufficient. -/
def fnScan : Nat → Bool → List Char → List Char → List String
  | 0, _, _, _ => []
  | _ + 1, mustAdv, behind, [] =>
    match (if mustAdv then fnMatchAtNE behind [] else fnMatchAt behind []) with
    | some (g1, _) => [g1]
    | none => []
  | fuel + 1, mustAdv, behind, c :: rest =>
    match (if mustAdv then fnMatchAtNE behind (c :: rest) else fnMatchAt behind (c :: rest)) with
    | some (g1, consumed) =>
      if consumed = 0 then
        g1 :: fnScan fuel true behind (c :: rest)
      else
        g1 :: fnScan fuel false (((c :: rest).take consumed).reverse ++ behind) ((c :: rest).drop consumed)
    | none => fnScan fuel false (c :: behind) rest

/-- `TAG_FN_PATTERN.findall` (lines 26, 136), group 1 of each match. -/
def findallFn (s : String) : List String :=
  fnScan (2 * (s.data.length + 1)) false [] s.data

/-- The weight chain of lines 104-125 as a function of the bold argument and
the incoming weight. The source writes each branch as
`style._replace(weight=w)` on the whole record; the untouched fields are
handled once in `applyBoldTag`. The trailing `orig` branch is unreachable
(every integer falls in some band) but kept for shape fidelity. -/
def boldWeightBucket (boldNumber : Int) (orig : Int) : Int :=
  if boldNumber ≤ 0 then 400
  else if boldNumber = 1 then 700
  else if 2 ≤ boldNumber ∧ boldNumber ≤ 150 then 100
  else if 151 ≤ boldNumber ∧ boldNumber ≤ 250 then 200
  else if 251 ≤ boldNumber ∧ boldNumber ≤ 350 then 300
  else if 351 ≤ boldNumber ∧ boldNumber ≤ 450 then 400
  else if 451 ≤ boldNumber ∧ boldNumber ≤ 550 then 500
  else if 551 ≤ boldNumber ∧ boldNumber ≤ 650 then 600
  else if 651 ≤ boldNumber ∧ boldNumber ≤ 750 then 700
  else if 751 ≤ boldNumber ∧ boldNumber ≤ 850 then 800
  else if 851 ≤ boldNumber then 900
  else orig

/-- The bold branch of `parseTags` (lines 98-125): the last bold match
(`bold[-1]`), its first integer (`INT_PATTERN.findall(...)[0]`), and the
weight-bucket chain. -/
def applyBoldTag (cleanTag : String) (style : AssStyle) : AssStyle :=
  if findallBold cleanTag ≠ [] then
    { style with
      weight :=
        boldWeightBucket
          (pyInt ((findFirstInt ((findallBold cleanTag).getLast?.getD "").data).getD ""))
          style.weight }
  else style

/-- The italic branch of `parseTags` (lines 127-133). The source compares the
first integer of the last italic match with the *string* `"1"` and has no
else branch: any other argument leaves the flag as it was. -/
def applyItalicTag (cleanTag : String) (style : AssStyle) : AssStyle :=
  if findallItalic cleanTag ≠ [] then
    if (findFirstInt ((findallItalic cleanTag).getLast?.getD "").data).getD "" = "1" then
      { style with italic := true }
    else style
  else style

/-- Python `"(" in font` for a single-character needle: char membership. -/
def pyInChar (c : Char) (s : String) : Bool := s.data.contains c

/-- The font-name branch of `parseTags` (lines 135-145). The returned `Bool`
records whether the source printed the warning about `(` / `)` in a font
name. -/
def applyFnTag (cleanTag : String) (style : AssStyle) : AssStyle × Bool :=
  if findallFn cleanTag ≠ [] then
    if !(pyInChar '(' ((findallFn cleanTag).getLast?.getD "")) &&
        !(pyInChar ')' ((findallFn cleanTag).getLast?.getD "")) then
      ({ style with
         fontName := stripFontname (pyLower (pyStrip ((findallFn cleanTag).getLast?.getD ""))) },
       false)
    else (style, true)
  else (style, false)

/-- `parseTags` (lines 85-147), with the warning print reified as a `Bool`. -/
def parseTagsWarn (tags : String) (style : AssStyle) : AssStyle × Bool :=
  if cleanTagOf tags ≠ "" then
    applyFnTag (cleanTagOf tags)
      (applyItalicTag (cleanTagOf tags) (applyBoldTag (cleanTagOf tags) style))
  else (style, false)

/-- `parseTags` (lines 85-147): the new `AssStyle` according to the tags. -/
def parseTags (tags : String) (style : AssStyle) : AssStyle :=
  (parseTagsWarn tags style).1

/-- `LINE_PATTERN.findall` (lines 20, 162): the alternating
(override-tags, following-text) pairs of a line, ending with the `("", "")`
pair produced by the final empty match at the end of the string. At any other
position the pattern consumes at least one character, so fuel `length + 1` is
always sufficient. -/
def lineFindallAux : Nat → List Char → List (String × String)
  | 0, _ => []
  | _ + 1, [] => [("", "")]
  | fuel + 1, c :: rest =>
    if c == '{' then
      let tags := rest.takeWhile (fun d => d != '}')
      let rest2 := rest.drop tags.length
      let rest3 := match rest2 with
        | '}' :: r => r
        | _ => rest2
      let text := rest3.takeWhile (fun d => d != '{')
      let rest4 := rest3.drop text.length
      (String.mk tags, String.mk text) :: lineFindallAux fuel rest4
    else
      let text := (c :: rest).takeWhile (fun d => d != '{')
      ("", String.mk text) :: lineFindallAux fuel ((c :: rest).drop text.length)

/-- `LINE_PATTERN.findall` on a line. -/
def lineFindall (l : List Char) : List (String × String) :=
  lineFindallAux (l.length + 1) l

/-- `parseLine` (lines 150-172): the running concatenation `allLineTags` of
all override blocks (each followed by the synthetic `\}` separator of line
169), and the set of styles produced by `parseTags` on each running
concatenation. The `text` component of each pair is bound but never used by
the source loop. -/
def parseLine (lineRawText : String) (style : AssStyle) : Finset AssStyle :=
  (((lineFindall lineRawText.data).dropLast).foldl
    (fun acc p =>
      (acc.1 ++ p.1 ++ "\\\x7d", insert (parseTags (acc.1 ++ p.1 ++ "\\\x7d") style) acc.2))
    ("", (∅ : Finset AssStyle))).2

/-- The weight-boost step inside the `searchFont` loop (lines 223-224):
`fontI._replace(weight=fontI.weight+150)` when the weight is more than 150
under the required weight and the required weight is at most 850; the original
`Font` value is unchanged, only the loop variable is rebound. -/
def boostFont (style : AssStyle) (fontI : Font) : Font :=
  if fontI.weight < style.weight - 150 ∧ style.weight ≤ 850 then
    { fontI with weight := fontI.weight + 150 }
  else fontI

/-- Python `int(bool)`. -/
def boolInt (b : Bool) : Int := if b then 1 else 0

/-- Lexicographic ≤ on `Int` triples: Python tuple comparison on the sort
keys. -/
def keyLe (a b : Int × Int × Int) : Bool :=
  decide (a.1 < b.1 ∨ (a.1 = b.1 ∧ (a.2.1 < b.2.1 ∨ (a.2.1 = b.2.1 ∧ a.2.2 ≤ b.2.2))))

/-- The sort key of line 230 (italic required):
`(-font.italic, abs(style.weight - font.weight), font.weight)`. -/
def keyItalic (style : AssStyle) (font : Font) : Int × Int × Int :=
  (-(boolInt font.italic), |style.weight - font.weight|, font.weight)

/-- The sort key of line 232 (non-italic required):
`(font.italic, abs(style.weight - font.weight), font.weight)`. -/
def keyRegular (style : AssStyle) (font : Font) : Int × Int × Int :=
  (boolInt font.italic, |style.weight - font.weight|, font.weight)

/-- `searchFont` (lines 209-234). The iteration order of the Python set
`fontCollection` is modeled by a list; Python's stable `list.sort` on a key is
modeled by the stable `List.mergeSort` on the corresponding ≤ test. -/
def searchFont (fontCollection : List Font) (style : AssStyle) : List Font :=
  let fontMatch :=
    (fontCollection.filter (fun fontI => fontI.fontName == style.fontName)).map
      (fun fontI => boostFont style fontI)
  if style.italic then
    fontMatch.mergeSort (fun f g => keyLe (keyItalic style f) (keyItalic style g))
  else
    fontMatch.mergeSort (fun f g => keyLe (keyRegular style f) (keyRegular style g))

/-- Python `set.add` on a set of `Font` (membership up to `fontEq`, see
`Font.__eq__`/`__hash__`); an already-present element is kept. -/
def pySetAddFont (s : List Font) (f : Font) : List Font :=
  if s.any (fun g => fontEq g f) then s else s ++ [f]

/-- Python `set.add` on a set of strings. -/
def pySetAddStr (s : List String) (x : String) : List String :=
  if s.contains x then s else s ++ [x]

/-- The loop of `findUsedFont` (lines 245-254), carrying
`(fontsFound, fontsMissing)`. -/
def findUsedFontGo (fontCollection : List Font) :
    List AssStyle → List Font × List String → List Font × List String
  | [], acc => acc
  | style :: rest, acc =>
    match searchFont fontCollection style with
    | best :: _ => findUsedFontGo fontCollection rest (pySetAddFont acc.1 best, acc.2)
    | [] => findUsedFontGo fontCollection rest (acc.1, pySetAddStr acc.2 style.fontName)

/-- `findUsedFont` (lines 237-263) with both of its accumulated sets:
`fontsFound` (the returned set) and `fontsMissing` (the family names printed
in the missing-fonts report). -/
def findUsedFontPair (fontCollection : List Font) (styleCollection : List AssStyle) :
    List Font × List String :=
  findUsedFontGo fontCollection styleCollection ([], [])

/-- `findUsedFont` (lines 237-263): only `fontsFound` is returned. -/
def findUsedFont (fontCollection : List Font) (styleCollection : List AssStyle) : List Font :=
  (findUsedFontPair fontCollection styleCollection).1

/-- One entry of `subtitle.styles` as read by line 184-185. -/
structure AssStyleDef where
  name : String
  fontname : String
  bold : Bool
  italic : Bool
deriving DecidableEq, Repr

/-- One entry of `subtitle.events`; `isDialogue` models
`isinstance(line, ass.Dialogue)` (line 188). -/
structure AssEvent where
  isDialogue : Bool
  style : String
  text : String
deriving DecidableEq, Repr

/-- The parts of an `ass.Document` that `getAssStyle` reads. -/
structure AssDocument where
  styles : List AssStyleDef
  events : List AssEvent

/-- The data of the fatal `sys.exit` of `getAssStyle` (line 194): the unknown
style name, the 1-based line number `i+1`, and the file name, exactly the
values interpolated into the error message. -/
structure StyleLookupError where
  styleName : String
  lineNumber : Nat
  fileName : String
deriving DecidableEq, Repr

/-- The dict comprehension of lines 184-185. A Python dict keeps the last
binding of a repeated key, represented here by an association list looked up
from the back. -/
def buildStyles (styles : List AssStyleDef) : List (String × AssStyle) :=
  styles.map (fun st =>
    (st.name,
     AssStyle.mk (stripFontname (pyLower (pyStrip st.fontname)))
       (if st.bold then 700 else 400) st.italic))

/-- Python dict lookup (`styles[line.style]`, line 190): the last binding of
the key, `none` for the `KeyError` case. -/
def dictGet (d : List (String × AssStyle)) (k : String) : Option AssStyle :=
  ((d.filter (fun e => e.1 == k)).getLast?).map (fun e => e.2)

/-- The `enumerate(subtitle.events)` loop of `getAssStyle` (lines 187-194):
`i` is the 0-based index over all events (dialogue or not); an unknown style
of a dialogue event aborts the whole run with the data of line 194. -/
def getAssStyleGo (styles : List (String × AssStyle)) (fileName : String) :
    List AssEvent → Nat → Finset AssStyle → Except StyleLookupError (Finset AssStyle)
  | [], _, acc => .ok acc
  | e :: rest, i, acc =>
    if e.isDialogue then
      match dictGet styles e.style with
      | some st => getAssStyleGo styles fileName rest (i + 1) (acc ∪ parseLine e.text st)
      | none => .error ⟨e.style, i + 1, fileName⟩
    else getAssStyleGo styles fileName rest (i + 1) acc

/-- `getAssStyle` (lines 175-196); the fatal `sys.exit` on an unknown style is
modeled as `Except.error`, so no style set is produced in that case. -/
def getAssStyle (subtitle : AssDocument) (fileName : String) :
    Except StyleLookupError (Finset AssStyle) :=
  getAssStyleGo (buildStyles subtitle.styles) fileName subtitle.events 0 ∅

/-! ### Spec-side definitions

The following definitions formalize wordings of the specification, to be
compared with the source-side definitions above. -/

/-- The spec's bold-argument weight map, written from the spec's words
(§4.4/C2): `≤0 → 400`; `exactly 1 → 700`; otherwise the 100-wide band value
(2–150→100, 151–250→200, …, 751–850→800, 851+→900), here expressed
arithmetically instead of by the source's explicit chain of comparisons. -/
def specWeightBucket (n : Int) : Int :=
  if n ≤ 0 then 400
  else if n = 1 then 700
  else 100 * min 9 (max 1 ((n + 49) / 100))

/-- The running concatenations of override blocks of a line: for the `k`-th
(override-block, text) pair, the concatenation of the first `k+1` blocks, each
followed by the synthetic `\}` separator. `parseLine` applies `parseTags` to
exactly these strings, one per pair. -/
def cumulativeTags : String → List (String × String) → List String
  | _, [] => []
  | acc, p :: ps => (acc ++ p.1 ++ "\\\x7d") :: cumulativeTags (acc ++ p.1 ++ "\\\x7d") ps

/-- The ordering the spec (§4.2/C4) requires between two consecutive
candidates returned for an italic required style: an italic candidate never
follows a non-italic one; with equal italic flags the smaller weight distance
comes first, and on equal distance the lower weight comes first. All weights
are the (possibly boosted) weights carried by the returned candidates. -/
def italicOrderKey (style : AssStyle) (f g : Font) : Prop :=
  (g.italic = true → f.italic = true) ∧
  (f.italic = g.italic →
    |style.weight - f.weight| ≤ |style.weight - g.weight| ∧
    (|style.weight - f.weight| = |style.weight - g.weight| → f.weight ≤ g.weight))

/-- `\r` occurrence test: whether the two-character sequence `\r` occurs in a
list of characters (the condition under which `TAG_R_PATTERN.split` splits). -/
def hasBR : List Char → Bool
  | [] => false
  | [_] => false
  | a :: b :: rest => (a == '\\' && b == 'r') || hasBR (b :: rest)

/-! ### Structural lemmas about `parseTags` -/

theorem applyBoldTag_italic (ct : String) (s : AssStyle) :
    (applyBoldTag ct s).italic = s.italic := by
  unfold applyBoldTag
  split_ifs <;> rfl

theorem applyBoldTag_fontName (ct : String) (s : AssStyle) :
    (applyBoldTag ct s).fontName = s.fontName := by
  unfold applyBoldTag
  split_ifs <;> rfl

theorem applyItalicTag_weight (ct : String) (s : AssStyle) :
    (applyItalicTag ct s).weight = s.weight := by
  unfold applyItalicTag
  split_ifs <;> rfl

theorem applyItalicTag_fontName (ct : String) (s : AssStyle) :
    (applyItalicTag ct s).fontName = s.fontName := by
  unfold applyItalicTag
  split_ifs <;> rfl

theorem applyFnTag_weight (ct : String) (s : AssStyle) :
    (applyFnTag ct s).1.weight = s.weight := by
  unfold applyFnTag
  split_ifs <;> rfl

theorem applyFnTag_italic (ct : String) (s : AssStyle) :
    (applyFnTag ct s).1.italic = s.italic := by
  unfold applyFnTag
  split_ifs <;> rfl

theorem parseTags_eq_of_cleanTag (tags : String) (style : AssStyle)
    (h : cleanTagOf tags ≠ "") :
    parseTags tags style =
      (applyFnTag (cleanTagOf tags)
        (applyItalicTag (cleanTagOf tags) (applyBoldTag (cleanTagOf tags) style))).1 := by
  unfold parseTags parseTagsWarn
  rw [if_pos h]

set_option maxHeartbeats 8000000 in
theorem boldWeightBucket_eq_spec (n w : Int) :
    boldWeightBucket n w = specWeightBucket n := by
  unfold boldWeightBucket specWeightBucket
  split_ifs <;> omega

/-- **C2**: for every integer argument of a bold/weight tag (the last bold
tag of the live tag text decides, via `bold[-1]`), the resulting weight is
the spec's bucket map `specWeightBucket`: 400 for arguments ≤ 0, 700 for
exactly 1, and otherwise the 100-wide band value with exact boundaries
(…, 150→100, 151→200, 250→200, 251→300, …, 850→800, 851+→900). -/
theorem parseTags_bold_weight (tags : String) (style : AssStyle) (bs : List String)
    (h1 : cleanTagOf tags ≠ "") (h2 : findallBold (cleanTagOf tags) = bs) (h3 : bs ≠ []) :
    (parseTags tags style).weight =
      specWeightBucket (pyInt ((findFirstInt (bs.getLast?.getD "").data).getD "")) := by
  rw [parseTags_eq_of_cleanTag tags style h1, applyFnTag_weight, applyItalicTag_weight]
  unfold applyBoldTag
  rw [h2, if_pos h3]
  exact boldWeightBucket_eq_spec _ _

set_option maxHeartbeats 1600000 in
/-- Witness for C2: `\b150\b851` maps through the last bold tag (851) to
weight 900. -/
theorem parseTags_bold_weight_witness :
    cleanTagOf "\\b150\\b851" ≠ "" ∧
    (parseTags "\\b150\\b851" ⟨"arial", 400, false⟩).weight = 900 :=
  ⟨by decide,
   (parseTags_bold_weight "\\b150\\b851" ⟨"arial", 400, false⟩
      (findallBold (cleanTagOf "\\b150\\b851")) (by decide) rfl (by decide)).trans (by decide)⟩

/-! ### The reset-tag rule (claim C3) -/

theorem pySplitRList_ne_nil (l : List Char) : pySplitRList l ≠ [] := by
  rw [pySplitRList.eq_def]
  split
  · simp
  · simp
  · split <;> simp

theorem hasBR_of_cons (a : Char) (t : List Char) (h : hasBR (a :: t) = false) :
    hasBR t = false := by
  cases t with
  | nil => rfl
  | cons b t2 =>
    have he : hasBR (a :: b :: t2) = ((a == '\\' && b == 'r') || hasBR (b :: t2)) := rfl
    rw [he] at h
    simp only [Bool.or_eq_false_iff] at h
    exact h.2

/-- Splitting a string that contains no `\r` returns the whole string. -/
theorem pySplitRList_eq_single (l : List Char) (h : hasBR l = false) :
    pySplitRList l = [l] := by
  induction l using pySplitRList.induct with
  | case1 => rfl
  | case2 rest ih =>
    exfalso
    have he : hasBR ('\\' :: 'r' :: rest) = (('\\' == '\\' && 'r' == 'r') || hasBR ('r' :: rest)) := rfl
    rw [he] at h
    simp at h
  | case3 c rest hno s ss hrec ih =>
    have h2 : hasBR rest = false := hasBR_of_cons c rest h
    have hone := ih h2
    rw [pySplitRList.eq_def]
    split
    · rename_i heq
      exact absurd heq (by simp)
    · rename_i rest2 heq
      injection heq with hc hr
      exact (hno rest2 hc hr).elim
    · rename_i c2 rest2 hno2 heq
      injection heq with hc hr
      subst hc
      subst hr
      rw [hone]
  | case4 c rest hno hrec ih =>
    exact absurd hrec (pySplitRList_ne_nil rest)

theorem getLast?_cons_of_ne_nil {α : Type} (x : α) (xs : List α) (h : xs ≠ []) :
    (x :: xs).getLast? = xs.getLast? := by
  cases xs with
  | nil => exact absurd rfl h
  | cons y ys => exact List.getLast?_cons_cons

/-- The last piece of a `\r` split contains no further `\r`. -/
theorem hasBR_getLast_pySplitRList (l : List Char) :
    hasBR ((pySplitRList l).getLast?.getD []) = false := by
  induction l using pySplitRList.induct with
  | case1 => rfl
  | case2 rest ih =>
    have he : pySplitRList ('\\' :: 'r' :: rest) = [] :: pySplitRList rest := rfl
    rw [he, getLast?_cons_of_ne_nil [] _ (pySplitRList_ne_nil rest)]
    exact ih
  | case3 c rest hno s ss hrec ih =>
    have he : pySplitRList (c :: rest) = (c :: s) :: ss := by
      rw [pySplitRList.eq_def]
      split
      · rename_i heq
        exact absurd heq (by simp)
      · rename_i rest2 heq
        injection heq with hc hr
        exact (hno rest2 hc hr).elim
      · rename_i c2 rest2 hno2 heq
        injection heq with hc hr
        subst hc
        subst hr
        rw [hrec]
    rw [he]
    cases ss with
    | cons t ts =>
      rw [List.getLast?_cons_cons]
      rw [hrec, List.getLast?_cons_cons] at ih
      exact ih
    | nil =>
      rw [hrec] at ih
      simp only [List.getLast?_singleton, Option.getD_some] at ih ⊢
      cases s with
      | nil => rfl
      | cons s0 s' =>
        obtain ⟨rest2, hrest⟩ : ∃ rest2, rest = s0 :: rest2 := by
          rw [pySplitRList.eq_def] at hrec
          split at hrec
          · simp at hrec
          · simp at hrec
          · rename_i c2 rest3 hno2
            split at hrec
            · rename_i y ys hy
              injection hrec with h1 h2
              injection h1 with h1a h1b
              exact ⟨rest3, by rw [h1a]⟩
            · rename_i hy
              exact absurd hy (pySplitRList_ne_nil rest3)
        have hcs : (c == '\\' && s0 == 'r') = false := by
          by_cases hc : c = '\\'
          · by_cases hs0 : s0 = 'r'
            · exact ((hno rest2 hc (by rw [hrest, hs0])).elim)
            · simp [hs0]
          · simp [hc]
        have he2 : hasBR (c :: s0 :: s') = ((c == '\\' && s0 == 'r') || hasBR (s0 :: s')) := rfl
        rw [he2, hcs, ih]
        rfl
  | case4 c rest hno hrec ih =>
    exact absurd hrec (pySplitRList_ne_nil rest)

/-- The live tag text is a fixed point of taking the text after the last
reset marker. -/
theorem cleanTagOf_idem (tags : String) :
    cleanTagOf (cleanTagOf tags) = cleanTagOf tags := by
  obtain ⟨x, hx⟩ : ∃ x, (pySplitRList tags.data).getLast? = some x := by
    cases hl : (pySplitRList tags.data).getLast? with
    | none => exact absurd (List.getLast?_eq_none_iff.mp hl) (pySplitRList_ne_nil _)
    | some x => exact ⟨x, rfl⟩
  have htag : cleanTagOf tags = String.mk x := by
    unfold cleanTagOf pySplitR
    rw [List.getLast?_map, hx]
    rfl
  have hx2 : hasBR x = false := by
    have hb := hasBR_getLast_pySplitRList tags.data
    rw [hx] at hb
    exact hb
  rw [htag]
  unfold cleanTagOf pySplitR
  have hdata : (String.mk x).data = x := rfl
  rw [hdata, pySplitRList_eq_single x hx2]
  rfl

/-- **C3**: when the accumulated override string contains at least one reset
marker (the `\r` split has at least two pieces), `parseTags` gives the same
result as running it on just the text after the last reset marker
(`cleanTagOf`), and if that remaining text is empty the result is exactly the
incoming base style. -/
theorem parseTags_reset (tags : String) (style : AssStyle)
    (_h : 2 ≤ (pySplitR tags).length) :
    parseTags tags style = parseTags (cleanTagOf tags) style ∧
    (cleanTagOf tags = "" → parseTags tags style = style) := by
  constructor
  · unfold parseTags parseTagsWarn
    rw [cleanTagOf_idem]
  · intro h0
    unfold parseTags parseTagsWarn
    rw [h0]
    simp

set_option maxHeartbeats 1600000 in
/-- Witness for C3: `\b1\r` has one reset marker with nothing after it, and
parses to the base style unchanged. -/
theorem parseTags_reset_witness :
    2 ≤ (pySplitR "\\b1\\r").length ∧
    parseTags "\\b1\\r" ⟨"arial", 400, false⟩ = parseTags (cleanTagOf "\\b1\\r") ⟨"arial", 400, false⟩ ∧
    parseTags "\\b1\\r" ⟨"arial", 400, false⟩ = ⟨"arial", 400, false⟩ :=
  ⟨by decide,
   (parseTags_reset "\\b1\\r" ⟨"arial", 400, false⟩ (by decide)).1,
   (parseTags_reset "\\b1\\r" ⟨"arial", 400, false⟩ (by decide)).2 (by decide)⟩

/-! ### The italic tag (claim C7) -/

set_option maxHeartbeats 1600000 in
/-- **C7 counterexample**: on base style (arial, 400, italic=true) the live
tag text `\i0` contains an italic tag whose argument is not 1, yet the
resulting style is still italic: the source has no else branch, so a non-"1"
argument leaves the flag unchanged instead of forcing "not italic" as the
claim states. -/
theorem parseTags_italic_zero_counterexample :
    findallItalic (cleanTagOf "\\i0") ≠ [] ∧
    (findFirstInt ((findallItalic (cleanTagOf "\\i0")).getLast?.getD "").data).getD "" ≠ "1" ∧
    (parseTags "\\i0" ⟨"arial", 400, true⟩).italic = true := by
  refine ⟨by decide, by decide, by decide⟩

/-- **C7 (amended)**: the italic flag produced by `parseTags` is decided by
the last italic tag of the live tag text alone: it becomes true when that
tag's captured integer text is exactly "1", and otherwise stays at the
incoming style's flag (it is never forced to false). -/
theorem parseTags_italic_amended (tags : String) (style : AssStyle) (is : List String)
    (h1 : cleanTagOf tags ≠ "") (h2 : findallItalic (cleanTagOf tags) = is) (h3 : is ≠ []) :
    (parseTags tags style).italic =
      (if (findFirstInt (is.getLast?.getD "").data).getD "" = "1" then true else style.italic) := by
  rw [parseTags_eq_of_cleanTag tags style h1, applyFnTag_italic]
  unfold applyItalicTag
  rw [h2, if_pos h3]
  split_ifs with h
  · rfl
  · exact applyBoldTag_italic _ _

set_option maxHeartbeats 1600000 in
/-- Witness for the amended C7: with tags `\i0\i1` the last italic tag wins
and sets the flag. -/
theorem parseTags_italic_amended_witness :
    (parseTags "\\i0\\i1" ⟨"arial", 400, false⟩).italic = true :=
  (parseTags_italic_amended "\\i0\\i1" ⟨"arial", 400, false⟩
      (findallItalic (cleanTagOf "\\i0\\i1")) (by decide) rfl (by decide)).trans (by decide)

/-! ### Font-name rejection (claim C8) -/

/-- **C8**: when the last font-name capture of the live tag text contains a
parenthesis, `parseTags` keeps the incoming style's font family and the
warning is emitted; being a total function it returns normally, so no fatal
error occurs. -/
theorem parseTags_fn_paren (tags : String) (style : AssStyle) (fs : List String)
    (h1 : cleanTagOf tags ≠ "") (h2 : findallFn (cleanTagOf tags) = fs) (h3 : fs ≠ [])
    (h4 : pyInChar '(' (fs.getLast?.getD "") = true ∨ pyInChar ')' (fs.getLast?.getD "") = true) :
    (parseTags tags style).fontName = style.fontName ∧ (parseTagsWarn tags style).2 = true := by
  have hcond : (!(pyInChar '(' (fs.getLast?.getD "")) && !(pyInChar ')' (fs.getLast?.getD ""))) = false := by
    rcases h4 with h | h <;> simp [h]
  constructor
  · rw [parseTags_eq_of_cleanTag tags style h1]
    unfold applyFnTag
    rw [h2, if_pos h3, if_neg (by simp [hcond])]
    rw [applyItalicTag_fontName, applyBoldTag_fontName]
  · unfold parseTagsWarn
    rw [if_pos h1]
    unfold applyFnTag
    rw [h2, if_pos h3, if_neg (by simp [hcond])]

set_option maxHeartbeats 3200000 in
/-- Witness for C8: a font tag capturing `Bell (MT)` leaves the family
"arial" unchanged and emits the warning. -/
theorem parseTags_fn_paren_witness :
    (parseTags "\\fnBell (MT)\\\x7d" ⟨"arial", 400, false⟩).fontName = "arial" ∧
    (parseTagsWarn "\\fnBell (MT)\\\x7d" ⟨"arial", 400, false⟩).2 = true :=
  parseTags_fn_paren "\\fnBell (MT)\\\x7d" ⟨"arial", 400, false⟩
    (findallFn (cleanTagOf "\\fnBell (MT)\\\x7d")) (by decide) rfl (by decide)
    (Or.inl (by decide))

/-! ### Every pair contributes a style (claim C1) -/

theorem parseLine_foldl (style : AssStyle) (pairs : List (String × String)) :
    ∀ (acc : String) (S : Finset AssStyle),
      (pairs.foldl
        (fun acc p =>
          (acc.1 ++ p.1 ++ "\\\x7d", insert (parseTags (acc.1 ++ p.1 ++ "\\\x7d") style) acc.2))
        (acc, S)).2
      = S ∪ ((cumulativeTags acc pairs).map (fun t => parseTags t style)).toFinset := by
  induction pairs with
  | nil =>
    intro acc S
    simp [cumulativeTags]
  | cons p ps ih =>
    intro acc S
    simp only [List.foldl_cons, cumulativeTags, List.map_cons, List.toFinset_cons]
    rw [ih]
    ext x
    simp only [Finset.mem_union, Finset.mem_insert, List.mem_toFinset]
    tauto

set_option maxHeartbeats 1600000 in
/-- **C1 counterexample**: the line `{\b1}` has exactly one
(override-block, following-text) pair, with empty following text, yet the
scanner still adds the bold style to the result set (the source loop never
inspects the text component), whereas the claim requires the empty set. -/
theorem parseLine_empty_text_counterexample :
    ((lineFindall ("\x7b\\b1\x7d".data)).dropLast).all (fun p => p.2 == "") = true ∧
    parseLine "\x7b\\b1\x7d" ⟨"arial", 400, false⟩ = {⟨"arial", 700, false⟩} := by
  refine ⟨by decide, by decide⟩

/-- **C1 (amended)**: the scanner adds the cumulative effective style of
*every* (override-block, following-text) pair to the result set, whether or
not the following text is empty: the result set is exactly the styles of the
running block concatenations. -/
theorem parseLine_adds_every_pair (lineRawText : String) (style : AssStyle) :
    parseLine lineRawText style =
      ((cumulativeTags "" ((lineFindall lineRawText.data).dropLast)).map
        (fun t => parseTags t style)).toFinset := by
  unfold parseLine
  rw [parseLine_foldl]
  simp

/-! ### Weight boost (claim C5) -/

theorem mergeSort_eq_singleton {α : Type} (le : α → α → Bool) (a : α) :
    [a].mergeSort le = [a] :=
  List.perm_singleton.mp (List.mergeSort_perm [a] le)

/-- **C5**: the matcher compares a matching candidate at its boosted weight,
and the boost is exactly +150, applied if and only if the candidate's weight
is more than 150 below the required weight and the required weight is at
most 850. -/
theorem searchFont_boost (style : AssStyle) (f : Font) (h : f.fontName = style.fontName) :
    searchFont [f] style = [boostFont style f] ∧
    (boostFont style f).weight =
      (if f.weight < style.weight - 150 ∧ style.weight ≤ 850 then f.weight + 150 else f.weight) ∧
    ((boostFont style f).weight = f.weight + 150 ↔
      (f.weight < style.weight - 150 ∧ style.weight ≤ 850)) := by
  refine ⟨?_, ?_, ?_⟩
  · unfold searchFont
    have hf : List.filter (fun fontI => fontI.fontName == style.fontName) [f] = [f] := by
      simp [List.filter, h]
    rw [hf]
    simp only [List.map_cons, List.map_nil]
    split_ifs <;> exact mergeSort_eq_singleton _ _
  · unfold boostFont
    split_ifs <;> rfl
  · unfold boostFont
    split_ifs with hc
    · simp [hc]
    · constructor
      · intro he
        exfalso
        omega
      · intro hcc
        exact absurd hcc hc

/-- Witness for C5: required weight 700 with candidate 500 is compared at
650; required weight 900 with candidate 700 is not boosted. -/
theorem searchFont_boost_witness :
    searchFont [⟨"c.ttf", "arial", 500, false⟩] ⟨"arial", 700, false⟩ =
      [⟨"c.ttf", "arial", 650, false⟩] ∧
    searchFont [⟨"d.ttf", "arial", 700, false⟩] ⟨"arial", 900, false⟩ =
      [⟨"d.ttf", "arial", 700, false⟩] :=
  ⟨((searchFont_boost ⟨"arial", 700, false⟩ ⟨"c.ttf", "arial", 500, false⟩ rfl).1).trans (by decide),
   ((searchFont_boost ⟨"arial", 900, false⟩ ⟨"d.ttf", "arial", 700, false⟩ rfl).1).trans (by decide)⟩

/-! ### Italic-first ordering (claim C4) -/

theorem keyLe_trans (a b c : Int × Int × Int) (h1 : keyLe a b = true) (h2 : keyLe b c = true) :
    keyLe a c = true := by
  simp only [keyLe, decide_eq_true_eq] at h1 h2 ⊢
  omega

theorem keyLe_total (a b : Int × Int × Int) : (keyLe a b || keyLe b a) = true := by
  simp only [keyLe, Bool.or_eq_true, decide_eq_true_eq]
  omega

/-- **C4**: for an italic required style, the returned candidate list is
pairwise ordered with every italic candidate before every non-italic one,
and within equal italic flags by weight distance, then by (boosted) weight. -/
theorem searchFont_italic_priority (fontCollection : List Font) (style : AssStyle)
    (h : style.italic = true) :
    List.Pairwise (italicOrderKey style) (searchFont fontCollection style) := by
  unfold searchFont
  rw [if_pos h]
  have hs :=
    @List.sorted_mergeSort Font (fun f g => keyLe (keyItalic style f) (keyItalic style g))
      (fun a b c hab hbc => keyLe_trans _ _ _ hab hbc)
      (fun a b => keyLe_total _ _)
      ((fontCollection.filter (fun fontI => fontI.fontName == style.fontName)).map
        (fun fontI => boostFont style fontI))
  refine hs.imp ?_
  intro a b hab
  simp only [keyLe, keyItalic, boolInt, decide_eq_true_eq] at hab
  unfold italicOrderKey
  cases ha : a.italic <;> cases hb : b.italic <;> simp_all <;> omega

/-- Witness for C4: an italic 400 candidate precedes a non-italic 700
candidate for the italic required style (arial, 700, italic). -/
theorem searchFont_italic_priority_witness :
    List.Pairwise (italicOrderKey ⟨"arial", 700, true⟩)
      (searchFont [⟨"a.ttf", "arial", 700, false⟩, ⟨"b.ttf", "arial", 400, true⟩]
        ⟨"arial", 700, true⟩) :=
  searchFont_italic_priority _ _ rfl

/-! ### Frame effect of the matcher (claim C10) -/

/-- **C10**: the matcher builds a new list: every returned descriptor takes
its path, family and italic flag from some pool member of the matching
family, and its weight is that member's weight boosted by 150 exactly when
the boost condition holds (the pool itself, being a value, is unchanged). -/
theorem searchFont_frame (fontCollection : List Font) (style : AssStyle) (f : Font)
    (hf : f ∈ searchFont fontCollection style) :
    ∃ g ∈ fontCollection,
      g.fontName = style.fontName ∧ f.fontPath = g.fontPath ∧ f.fontName = g.fontName ∧
      f.italic = g.italic ∧
      f.weight =
        (if g.weight < style.weight - 150 ∧ style.weight ≤ 850 then g.weight + 150
         else g.weight) := by
  unfold searchFont at hf
  have hf2 : f ∈ (fontCollection.filter (fun fontI => fontI.fontName == style.fontName)).map
      (fun fontI => boostFont style fontI) := by
    by_cases hi : style.italic = true
    · rw [if_pos hi] at hf
      exact List.mem_mergeSort.mp hf
    · rw [if_neg hi] at hf
      exact List.mem_mergeSort.mp hf
  obtain ⟨g, hg, hfg⟩ := List.mem_map.mp hf2
  obtain ⟨hgmem, hgname⟩ := List.mem_filter.mp hg
  subst hfg
  refine ⟨g, hgmem, by simpa using hgname, ?_, ?_, ?_, ?_⟩ <;>
    unfold boostFont <;> split_ifs <;> rfl

unseal List.merge List.mergeSort in
/-- Witness for C10: the single returned candidate for (arial, 700) over a
pool with one 500-weight file carries the boosted weight 650 but the file's
path, family and italic flag. -/
theorem searchFont_frame_witness :
    ∃ g ∈ [(⟨"a.ttf", "arial", 500, false⟩ : Font)],
      g.fontName = (⟨"arial", 700, false⟩ : AssStyle).fontName ∧
      (⟨"a.ttf", "arial", 650, false⟩ : Font).fontPath = g.fontPath ∧
      (⟨"a.ttf", "arial", 650, false⟩ : Font).fontName = g.fontName ∧
      (⟨"a.ttf", "arial", 650, false⟩ : Font).italic = g.italic ∧
      (⟨"a.ttf", "arial", 650, false⟩ : Font).weight =
        (if g.weight < (⟨"arial", 700, false⟩ : AssStyle).weight - 150 ∧
            (⟨"arial", 700, false⟩ : AssStyle).weight ≤ 850 then g.weight + 150
         else g.weight) :=
  searchFont_frame [⟨"a.ttf", "arial", 500, false⟩] ⟨"arial", 700, false⟩
    ⟨"a.ttf", "arial", 650, false⟩ (by decide)

/-! ### Found/missing partition (claim C9) -/

theorem fontEq_refl (f : Font) : fontEq f f = true := by
  simp [fontEq]

theorem mergeSort_eq_nil_iff {α : Type} (le : α → α → Bool) (l : List α) :
    l.mergeSort le = [] ↔ l = [] := by
  constructor
  · intro h
    have hp := List.mergeSort_perm l le
    rw [h] at hp
    exact hp.nil_eq.symm
  · intro h
    subst h
    exact List.mergeSort_nil

/-- The matcher returns no candidate exactly when no pool member has the
required family name; in particular emptiness depends only on the family. -/
theorem searchFont_eq_nil_iff (fontCollection : List Font) (style : AssStyle) :
    searchFont fontCollection style = [] ↔
      ∀ g ∈ fontCollection, ¬(g.fontName = style.fontName) := by
  unfold searchFont
  by_cases hi : style.italic = true
  · rw [if_pos hi, mergeSort_eq_nil_iff]
    simp
  · rw [if_neg hi, mergeSort_eq_nil_iff]
    simp

theorem mem_pySetAddStr (s : List String) (y x : String) :
    x ∈ pySetAddStr s y ↔ x ∈ s ∨ x = y := by
  unfold pySetAddStr
  split_ifs with h
  · constructor
    · exact Or.inl
    · rintro (hx | hx)
      · exact hx
      · subst hx
        simpa using h
  · simp [List.mem_append]

theorem findUsedFontGo_found_mono (fc : List Font) (sc : List AssStyle) :
    ∀ (acc : List Font × List String) (f : Font),
      acc.1.any (fun g => fontEq g f) = true →
      (findUsedFontGo fc sc acc).1.any (fun g => fontEq g f) = true := by
  induction sc with
  | nil =>
    intro acc f h
    exact h
  | cons s0 rest ih =>
    intro acc f h
    unfold findUsedFontGo
    cases hsf : searchFont fc s0 with
    | cons b bs =>
      apply ih
      show (pySetAddFont acc.1 b).any (fun g => fontEq g f) = true
      unfold pySetAddFont
      split_ifs with hmem
      · exact h
      · simp only [List.any_append, List.any_cons, List.any_nil, Bool.or_false, Bool.or_eq_true]
        exact Or.inl h
    | nil =>
      apply ih
      exact h

theorem findUsedFontGo_found_rec (fc : List Font) (sc : List AssStyle) :
    ∀ (acc : List Font × List String) (s : AssStyle), s ∈ sc →
      ∀ (b : Font) (bs : List Font), searchFont fc s = b :: bs →
      (findUsedFontGo fc sc acc).1.any (fun g => fontEq g b) = true := by
  induction sc with
  | nil =>
    intro acc s hs
    cases hs
  | cons s0 rest ih =>
    intro acc s hs b bs hb
    unfold findUsedFontGo
    rcases List.mem_cons.mp hs with heq | hmem
    · subst heq
      rw [hb]
      apply findUsedFontGo_found_mono
      show (pySetAddFont acc.1 b).any (fun g => fontEq g b) = true
      unfold pySetAddFont
      split_ifs with hmem2
      · exact hmem2
      · simp [List.any_append, fontEq_refl]
    · cases hsf : searchFont fc s0 with
      | cons b0 bs0 => exact ih _ s hmem b bs hb
      | nil => exact ih _ s hmem b bs hb

theorem findUsedFontGo_missing_spec (fc : List Font) (sc : List AssStyle) :
    ∀ (acc : List Font × List String) (x : String),
      (x ∈ (findUsedFontGo fc sc acc).2 ↔
        x ∈ acc.2 ∨ ∃ s ∈ sc, s.fontName = x ∧ searchFont fc s = []) := by
  induction sc with
  | nil =>
    intro acc x
    simp [findUsedFontGo]
  | cons s0 rest ih =>
    intro acc x
    unfold findUsedFontGo
    cases hsf : searchFont fc s0 with
    | cons b bs =>
      rw [ih]
      simp only [List.mem_cons]
      constructor
      · rintro (h | ⟨s, hs, h1, h2⟩)
        · exact Or.inl h
        · exact Or.inr ⟨s, Or.inr hs, h1, h2⟩
      · rintro (h | ⟨s, rfl | hs, h1, h2⟩)
        · exact Or.inl h
        · rw [h2] at hsf
          exact absurd hsf (by simp)
        · exact Or.inr ⟨s, hs, h1, h2⟩
    | nil =>
      rw [ih]
      simp only [List.mem_cons]
      show x ∈ pySetAddStr acc.2 s0.fontName ∨ _ ↔ _
      rw [mem_pySetAddStr]
      constructor
      · rintro ((h | h) | ⟨s, hs, h1, h2⟩)
        · exact Or.inl h
        · exact Or.inr ⟨s0, Or.inl rfl, h.symm, hsf⟩
        · exact Or.inr ⟨s, Or.inr hs, h1, h2⟩
      · rintro (h | ⟨s, rfl | hs, h1, h2⟩)
        · exact Or.inl (Or.inl h)
        · exact Or.inl (Or.inr h1.symm)
        · exact Or.inr ⟨s, hs, h1, h2⟩

/-- **C9**: every required style is classified in exactly one of found or
missing: either the matcher finds candidates, the best one is recorded in
`fontsFound` (membership up to `Font.__eq__`) and the family is not reported
missing — or the matcher finds none, the family name is recorded in
`fontsMissing`, and there is no best match to record. -/
theorem findUsedFont_partition (fontCollection : List Font) (styleCollection : List AssStyle)
    (s : AssStyle) (hs : s ∈ styleCollection) :
    ((∃ b bs, searchFont fontCollection s = b :: bs ∧
        (findUsedFontPair fontCollection styleCollection).1.any (fun g => fontEq g b) = true) ∧
      s.fontName ∉ (findUsedFontPair fontCollection styleCollection).2) ∨
    (searchFont fontCollection s = [] ∧
      s.fontName ∈ (findUsedFontPair fontCollection styleCollection).2 ∧
      ¬∃ b bs, searchFont fontCollection s = b :: bs) := by
  cases hsf : searchFont fontCollection s with
  | nil =>
    right
    refine ⟨rfl, ?_, ?_⟩
    · unfold findUsedFontPair
      rw [findUsedFontGo_missing_spec]
      exact Or.inr ⟨s, hs, rfl, hsf⟩
    · rintro ⟨b, bs, hb⟩
      exact absurd hb (by simp)
  | cons b bs =>
    left
    constructor
    · exact ⟨b, bs, rfl,
        findUsedFontGo_found_rec fontCollection styleCollection ([], []) s hs b bs hsf⟩
    · intro hmem
      unfold findUsedFontPair at hmem
      rw [findUsedFontGo_missing_spec] at hmem
      rcases hmem with h | ⟨s2, hs2, h1, h2⟩
      · simp at h
      · rw [searchFont_eq_nil_iff] at h2
        have hnil : searchFont fontCollection s = [] := by
          rw [searchFont_eq_nil_iff]
          intro g hg hname
          exact h2 g hg (by rw [hname, ← h1])
        rw [hnil] at hsf
        exact absurd hsf (by simp)

/-- Witness for C9 at a concrete pool and style collection: the arial style
is classified (its match is found or its name is missing, exclusively). -/
theorem findUsedFont_partition_witness :
    ((∃ b bs, searchFont [(⟨"a.ttf", "arial", 700, false⟩ : Font)] ⟨"arial", 400, false⟩ = b :: bs ∧
        (findUsedFontPair [⟨"a.ttf", "arial", 700, false⟩]
          [⟨"arial", 400, false⟩, ⟨"jester", 400, false⟩]).1.any (fun g => fontEq g b) = true) ∧
      (⟨"arial", 400, false⟩ : AssStyle).fontName ∉
        (findUsedFontPair [⟨"a.ttf", "arial", 700, false⟩]
          [⟨"arial", 400, false⟩, ⟨"jester", 400, false⟩]).2) ∨
    (searchFont [(⟨"a.ttf", "arial", 700, false⟩ : Font)] ⟨"arial", 400, false⟩ = [] ∧
      (⟨"arial", 400, false⟩ : AssStyle).fontName ∈
        (findUsedFontPair [⟨"a.ttf", "arial", 700, false⟩]
          [⟨"arial", 400, false⟩, ⟨"jester", 400, false⟩]).2 ∧
      ¬∃ b bs, searchFont [(⟨"a.ttf", "arial", 700, false⟩ : Font)] ⟨"arial", 400, false⟩ = b :: bs) :=
  findUsedFont_partition [⟨"a.ttf", "arial", 700, false⟩]
    [⟨"arial", 400, false⟩, ⟨"jester", 400, false⟩] ⟨"arial", 400, false⟩ (by simp)

/-! ### Fatal unknown-style lookup (claim C6) -/

theorem getAssStyleGo_error (styles : List (String × AssStyle)) (fileName : String) :
    ∀ (events : List AssEvent) (i : Nat) (acc : Finset AssStyle),
      (∃ e ∈ events, e.isDialogue = true ∧ dictGet styles e.style = none) →
      ∃ j, ∃ hj : j < events.length,
        (events.get ⟨j, hj⟩).isDialogue = true ∧
        dictGet styles (events.get ⟨j, hj⟩).style = none ∧
        getAssStyleGo styles fileName events i acc =
          .error ⟨(events.get ⟨j, hj⟩).style, i + j + 1, fileName⟩ := by
  intro events
  induction events with
  | nil =>
    intro i acc h
    simp at h
  | cons e rest ih =>
    intro i acc h
    by_cases hd : e.isDialogue = true
    · cases hg : dictGet styles e.style with
      | none =>
        refine ⟨0, by simp, by simpa using hd, by simpa using hg, ?_⟩
        unfold getAssStyleGo
        rw [if_pos hd, hg]
        simp
      | some st =>
        have h2 : ∃ e2 ∈ rest, e2.isDialogue = true ∧ dictGet styles e2.style = none := by
          obtain ⟨e2, he2, hde2, hge2⟩ := h
          rcases List.mem_cons.mp he2 with rfl | hmem
          · rw [hge2] at hg
            cases hg
          · exact ⟨e2, hmem, hde2, hge2⟩
        obtain ⟨j, hj, hj1, hj2, hj3⟩ := ih (i + 1) (acc ∪ parseLine e.text st) h2
        refine ⟨j + 1, by simpa using Nat.succ_lt_succ hj, by simpa using hj1, by simpa using hj2, ?_⟩
        unfold getAssStyleGo
        rw [if_pos hd, hg]
        have harith : i + 1 + j + 1 = i + (j + 1) + 1 := by omega
        rw [harith] at hj3
        exact hj3
    · have h2 : ∃ e2 ∈ rest, e2.isDialogue = true ∧ dictGet styles e2.style = none := by
        obtain ⟨e2, he2, hde2, hge2⟩ := h
        rcases List.mem_cons.mp he2 with rfl | hmem
        · exact absurd hde2 hd
        · exact ⟨e2, hmem, hde2, hge2⟩
      obtain ⟨j, hj, hj1, hj2, hj3⟩ := ih (i + 1) acc h2
      refine ⟨j + 1, by simpa using Nat.succ_lt_succ hj, by simpa using hj1, by simpa using hj2, ?_⟩
      unfold getAssStyleGo
      rw [if_neg hd]
      have harith : i + 1 + j + 1 = i + (j + 1) + 1 := by omega
      rw [harith] at hj3
      exact hj3

/-- **C6**: if any dialogue event references a style name absent from the
style registry, the whole run fails with an error (no style set is produced)
that carries the file name, the offending style name (with its registry
lookup indeed failing), and the 1-based line number of an offending dialogue
event. -/
theorem getAssStyle_unknown_style_fatal (doc : AssDocument) (fileName : String)
    (h : ∃ e ∈ doc.events, e.isDialogue = true ∧
      dictGet (buildStyles doc.styles) e.style = none) :
    ∃ err : StyleLookupError,
      getAssStyle doc fileName = .error err ∧
      err.fileName = fileName ∧ 1 ≤ err.lineNumber ∧
      ∃ hj : err.lineNumber - 1 < doc.events.length,
        (doc.events.get ⟨err.lineNumber - 1, hj⟩).isDialogue = true ∧
        (doc.events.get ⟨err.lineNumber - 1, hj⟩).style = err.styleName ∧
        dictGet (buildStyles doc.styles) err.styleName = none := by
  obtain ⟨j, hj, hj1, hj2, hj3⟩ :=
    getAssStyleGo_error (buildStyles doc.styles) fileName doc.events 0 ∅ h
  rw [Nat.zero_add] at hj3
  refine ⟨⟨(doc.events.get ⟨j, hj⟩).style, j + 1, fileName⟩, hj3, rfl,
    by exact Nat.le_add_left 1 j, ?_⟩
  exact ⟨hj, hj1, rfl, hj2⟩

/-- Witness for C6: a document whose second event names the unregistered
style "Nope" fails with an error naming it on line 2. -/
theorem getAssStyle_unknown_style_fatal_witness :
    ∃ err : StyleLookupError,
      getAssStyle
        ⟨[⟨"Default", "Arial", false, false⟩],
         [⟨true, "Default", "hi"⟩, ⟨true, "Nope", "x"⟩]⟩ "t.ass" = .error err ∧
      err.fileName = "t.ass" ∧ 1 ≤ err.lineNumber ∧
      ∃ hj : err.lineNumber - 1 <
          (⟨[⟨"Default", "Arial", false, false⟩],
            [⟨true, "Default", "hi"⟩, ⟨true, "Nope", "x"⟩]⟩ : AssDocument).events.length,
        ((⟨[⟨"Default", "Arial", false, false⟩],
           [⟨true, "Default", "hi"⟩, ⟨true, "Nope", "x"⟩]⟩ : AssDocument).events.get
            ⟨err.lineNumber - 1, hj⟩).isDialogue = true ∧
        ((⟨[⟨"Default", "Arial", false, false⟩],
           [⟨true, "Default", "hi"⟩, ⟨true, "Nope", "x"⟩]⟩ : AssDocument).events.get
            ⟨err.lineNumber - 1, hj⟩).style = err.styleName ∧
        dictGet (buildStyles (⟨[⟨"Default", "Arial", false, false⟩],
           [⟨true, "Default", "hi"⟩, ⟨true, "Nope", "x"⟩]⟩ : AssDocument).styles)
          err.styleName = none :=
  getAssStyle_unknown_style_fatal
    ⟨[⟨"Default", "Arial", false, false⟩],
     [⟨true, "Default", "hi"⟩, ⟨true, "Nope", "x"⟩]⟩ "t.ass"
    ⟨⟨true, "Nope", "x"⟩, by simp, rfl, by decide⟩

end FontCollector
